import Mathlib

/-!
Verification of the distributed heat-relaxation kernel of
`src/src/c/gpu.c` (with the `src/unnamed/part_000` variant of the same
`main`).  The per-rank state is a pair of slabs `temperatures`
(`cur`) and `temperatures_last` (`last`), each of shape
`(ROWS_PER_MPI_PROCESS + 2) × COLUMNS_PER_MPI_PROCESS`.  Temperatures are
modelled as exact rationals standing for the C `double` values, so the
averaging formulas are taken at their exact arithmetic meaning.
Slabs are total functions on `ℕ × ℕ`; every statement restricts attention
to the indices the program actually touches.
-/

namespace HeatSim

/-- A slab or global grid of temperatures: cell `(i, j)` is row `i`,
column `j`. -/
abbrev Grid : Type := ℕ → ℕ → ℚ

/-- The fixed-source temperature constant: `MAX_TEMPERATURE = 50.0`
(documented at gpu.c line 68; the macro itself lives in the repository's
`util.h`). -/
def MAX_TEMPERATURE : ℚ := 50

/-- Rank of the up neighbour (gpu.c line 48): `MPI_PROC_NULL` (here
`none`) for the first rank, otherwise `my_rank - 1`. -/
def up_neighbour_rank (w : ℕ) : Option ℕ :=
  if w = 0 then none else some (w - 1)

/-- Rank of the down neighbour (gpu.c line 51): `none` for the last rank
`W - 1`, otherwise `my_rank + 1`. -/
def down_neighbour_rank (W w : ℕ) : Option ℕ :=
  if w = W - 1 then none else some (w + 1)

/-- First global row owned by rank `w`: the chunk sent to rank `w`
starts at `all_temperatures[w * ROWS_PER_MPI_PROCESS]` (gpu.c line 99),
and `ROWS_PER_MPI_PROCESS = R / W`. -/
def ownedLo (R W w : ℕ) : ℕ := w * (R / W)

/-- One past the last global row owned by rank `w`. -/
def ownedHi (R W w : ℕ) : ℕ := (w + 1) * (R / W)

/-- Left-edge kernel value (gpu.c lines 196-198): three-point average of
the rows above and below and the column to the right. -/
def leftEdgeVal (last : Grid) (i : ℕ) : ℚ :=
  (last (i - 1) 0 + last (i + 1) 0 + last i 1) / 3

/-- Interior kernel value (gpu.c lines 210-213): quarter of the sum of
the four neighbours. -/
def interiorVal (last : Grid) (i j : ℕ) : ℚ :=
  0.25 * (last (i - 1) j + last (i + 1) j + last i (j - 1) + last i (j + 1))

/-- Right-edge kernel value (gpu.c lines 223-225): three-point average
using column `C - 2` in place of the missing right neighbour. -/
def rightEdgeVal (C : ℕ) (last : Grid) (i : ℕ) : ℚ :=
  (last (i - 1) (C - 1) + last (i + 1) (C - 1) + last i (C - 2)) / 3

/-- Which of the three kernels writes column `j`: the left-edge loop
writes `j = 0`, the right-edge loop writes `j = C - 1`, the interior
loop writes `0 < j < C - 1` (for the configurations of interest
`C ≥ 2`, so the three regions are disjoint). -/
def stencilVal (C : ℕ) (last : Grid) (i j : ℕ) : ℚ :=
  if j = 0 then leftEdgeVal last i
  else if j = C - 1 then rightEdgeVal C last i
  else interiorVal last i j

/-- One pass of the three stencil kernels (gpu.c lines 191-227) over a
slab: every owned cell (`1 ≤ i ≤ R`, `j < C`) whose current value is not
`MAX_TEMPERATURE` receives the averaging value; all kernels read only
`last` plus the cell's own current value, so the loops are
order-independent. -/
def stencilOnce (R C : ℕ) (cur last : Grid) : Grid := fun i j =>
  if 1 ≤ i ∧ i ≤ R ∧ j < C then
    if cur i j = MAX_TEMPERATURE then cur i j else stencilVal C last i j
  else cur i j

/-- The copy-back inside SUBTASK 3 (gpu.c line 241):
`temperatures_last[i][j] = temperatures[i][j]` on the owned rows. -/
def copyBack (R C : ℕ) (cur last : Grid) : Grid := fun i j =>
  if 1 ≤ i ∧ i ≤ R ∧ j < C then cur i j else last i j

/-- The whole distributed state: `cur w` is rank `w`'s `temperatures`
array, `last w` its `temperatures_last` array. -/
structure Sys where
  cur : ℕ → Grid
  last : ℕ → Grid

/-- SUBTASK 1 ghost-cell exchange (gpu.c lines 171-180).  Rank `w` sends
`temperatures` row `1` up and row `R` down, and receives into
`temperatures_last` row `0` (from the up neighbour's row `R`) and row
`R + 1` (from the down neighbour's row `1`).  The first rank's up
transfers and the last rank's down transfers address `MPI_PROC_NULL`
and move no data. -/
def exchange (W R C : ℕ) (s : Sys) : Sys where
  cur := s.cur
  last := fun w i j =>
    if i = 0 ∧ j < C then
      if w = 0 then s.last w i j else s.cur (w - 1) R j
    else if i = R + 1 ∧ j < C then
      if w = W - 1 then s.last w i j else s.cur (w + 1) 1 j
    else s.last w i j

/-- One iteration of the while-loop body as it acts on the slabs:
ghost-cell exchange, the three stencil kernels, then the copy-back.
(The reduction, snapshot gather, timing and broadcast read but do not
modify the slabs.) -/
def iterOnce (W R C : ℕ) (s : Sys) : Sys :=
  { cur := fun w => stencilOnce R C ((exchange W R C s).cur w) ((exchange W R C s).last w)
    last := fun w =>
      copyBack R C (stencilOnce R C ((exchange W R C s).cur w) ((exchange W R C s).last w))
        ((exchange W R C s).last w) }

/-- State of the slabs after `n` iterations of the loop body. -/
def iterN (W R C n : ℕ) (s : Sys) : Sys :=
  match n with
  | 0 => s
  | Nat.succ m => iterOnce W R C (iterN W R C m s)

/-- TASK 1 distribution plus the current-from-last copy loop (gpu.c
lines 91-135): rank `w`'s `temperatures_last` rows `1..R` receive global
rows `w*R .. w*R + R - 1`, and `temperatures` rows `1..R` copy them.
Every other cell of both slabs keeps whatever the automatic arrays held
when declared (gpu.c lines 58-61 declare them with no initializer), here
the explicit `junkCur`/`junkLast` contents. -/
def distribute (R C : ℕ) (all : Grid) (junkCur junkLast : ℕ → Grid) : Sys where
  cur := fun w i j =>
    if 1 ≤ i ∧ i ≤ R ∧ j < C then all (w * R + (i - 1)) j else junkCur w i j
  last := fun w i j =>
    if 1 ≤ i ∧ i ≤ R ∧ j < C then all (w * R + (i - 1)) j else junkLast w i j

/-- SUBTASK 6 snapshot gather (gpu.c line 269): `MPI_Gather` of each
rank's `temperatures` rows `1..R`, so global row `g` of the snapshot is
rank `g / R`'s slab row `g % R + 1`. -/
def gatherSnapshot (R : ℕ) (s : Sys) : Grid := fun g j => s.cur (g / R) (g % R + 1) j

/-- The snapshot produced in iteration `0`: the gather sits after the
stencil kernels in the loop body (gpu.c lines 191-269), so it collects
the slabs after one full update of the distributed initial grid. -/
def firstSnapshot (W R C : ℕ) (all : Grid) (jc jl : ℕ → Grid) : Grid :=
  gatherSnapshot R (iterOnce W R C (distribute R C all jc jl))

/-- Unfolding lemma for the `temperatures_last` side of the exchange. -/
theorem exchange_last_eq (W R C : ℕ) (s : Sys) (w i j : ℕ) :
    (exchange W R C s).last w i j =
      if i = 0 ∧ j < C then
        (if w = 0 then s.last w i j else s.cur (w - 1) R j)
      else if i = R + 1 ∧ j < C then
        (if w = W - 1 then s.last w i j else s.cur (w + 1) 1 j)
      else s.last w i j := rfl

/-- Unfolding lemma for the `temperatures` side of one iteration. -/
theorem iterOnce_cur_eq (W R C : ℕ) (s : Sys) (w : ℕ) :
    (iterOnce W R C s).cur w =
      stencilOnce R C (s.cur w) ((exchange W R C s).last w) := rfl

/-- Unfolding lemma for the `temperatures_last` side of one iteration. -/
theorem iterOnce_last_eq (W R C : ℕ) (s : Sys) (w : ℕ) :
    (iterOnce W R C s).last w =
      copyBack R C ((iterOnce W R C s).cur w) ((exchange W R C s).last w) := rfl

/-- Unfolding lemma for the slabs after distribution. -/
theorem distribute_last_eq (R C : ℕ) (all : Grid) (jc jl : ℕ → Grid) (w i j : ℕ) :
    (distribute R C all jc jl).last w i j =
      if 1 ≤ i ∧ i ≤ R ∧ j < C then all (w * R + (i - 1)) j else jl w i j := rfl

/-- Unfolding lemma for the current slab after distribution. -/
theorem distribute_cur_eq (R C : ℕ) (all : Grid) (jc jl : ℕ → Grid) (w i j : ℕ) :
    (distribute R C all jc jl).cur w i j =
      if 1 ≤ i ∧ i ≤ R ∧ j < C then all (w * R + (i - 1)) j else jc w i j := rfl

/-- A cell already holding `MAX_TEMPERATURE` is skipped by all three
kernels (the guards at gpu.c lines 194, 208, 221). -/
theorem stencilOnce_preserves_max (R C : ℕ) (cur last : Grid) (i j : ℕ)
    (h : cur i j = MAX_TEMPERATURE) :
    stencilOnce R C cur last i j = MAX_TEMPERATURE := by
  unfold stencilOnce
  by_cases hin : 1 ≤ i ∧ i ≤ R ∧ j < C
  · rw [if_pos hin, if_pos h]
    exact h
  · rw [if_neg hin]
    exact h

/-- One loop iteration keeps a `MAX_TEMPERATURE` cell of `temperatures`
at `MAX_TEMPERATURE`: the exchange never writes `temperatures`, and the
kernels skip the cell. -/
theorem iterOnce_preserves_max (W R C : ℕ) (s : Sys) (w i j : ℕ)
    (h : s.cur w i j = MAX_TEMPERATURE) :
    (iterOnce W R C s).cur w i j = MAX_TEMPERATURE :=
  stencilOnce_preserves_max R C (s.cur w) ((exchange W R C s).last w) i j h

/-- Any number of loop iterations keeps a `MAX_TEMPERATURE` cell of
`temperatures` at `MAX_TEMPERATURE`. -/
theorem iterN_preserves_max (W R C n : ℕ) (s : Sys) (w i j : ℕ)
    (h : s.cur w i j = MAX_TEMPERATURE) :
    (iterN W R C n s).cur w i j = MAX_TEMPERATURE := by
  induction n with
  | zero => exact h
  | succ m ih => exact iterOnce_preserves_max W R C (iterN W R C m s) w i j ih

/-- C2: a cell whose `temperatures` value is the maximum temperature
constant (as every fixed-source cell's is at initialization) still holds
exactly that constant after any number of stencil iterations; the update
never overwrites it. -/
theorem fixed_source_cells_invariant (W R C : ℕ) (s : Sys) (w i j n : ℕ)
    (h : s.cur w i j = MAX_TEMPERATURE) :
    (iterN W R C n s).cur w i j = MAX_TEMPERATURE :=
  iterN_preserves_max W R C n s w i j h

/-- Concrete slab state for the C2 witness: everything at the maximum
temperature. -/
def sysAllMax : Sys where
  cur := fun _ _ _ => 50
  last := fun _ _ _ => 50

theorem fixed_source_cells_invariant_witness :
    sysAllMax.cur 0 1 0 = MAX_TEMPERATURE ∧
      (iterN 1 1 2 5 sysAllMax).cur 0 1 0 = MAX_TEMPERATURE :=
  ⟨rfl, fixed_source_cells_invariant 1 1 2 sysAllMax 0 1 0 5 rfl⟩

/-- C10: the kernels identify cells to skip by value equality alone.  A
cell at exactly `MAX_TEMPERATURE` is left unchanged by that and every
subsequent update, whatever set of cells was designated at
initialization; a cell at any other value receives the averaging
value of its kernel. -/
theorem update_guard_is_value_equality (W R C : ℕ) (s : Sys) (w i j : ℕ)
    (hi1 : 1 ≤ i) (hiR : i ≤ R) (hj : j < C) :
    (s.cur w i j = MAX_TEMPERATURE →
      ∀ n, (iterN W R C n s).cur w i j = MAX_TEMPERATURE) ∧
    (s.cur w i j ≠ MAX_TEMPERATURE →
      (iterOnce W R C s).cur w i j = stencilVal C ((exchange W R C s).last w) i j) := by
  constructor
  · intro h n
    exact iterN_preserves_max W R C n s w i j h
  · intro h
    show stencilOnce R C (s.cur w) ((exchange W R C s).last w) i j = _
    unfold stencilOnce
    rw [if_pos ⟨hi1, hiR, hj⟩, if_neg h]

/-- Concrete slab state for the C10 witness: a cool grid. -/
def sysCool : Sys where
  cur := fun _ _ _ => 1
  last := fun _ _ _ => 1

theorem update_guard_is_value_equality_witness :
    1 ≤ 1 ∧ 1 ≤ 1 ∧ 0 < 2 ∧
      ((sysCool.cur 0 1 0 = MAX_TEMPERATURE →
        ∀ n, (iterN 1 1 2 n sysCool).cur 0 1 0 = MAX_TEMPERATURE) ∧
       (sysCool.cur 0 1 0 ≠ MAX_TEMPERATURE →
        (iterOnce 1 1 2 sysCool).cur 0 1 0 =
          stencilVal 2 ((exchange 1 1 2 sysCool).last 0) 1 0)) :=
  ⟨by decide, by decide, by decide,
    update_guard_is_value_equality 1 1 2 sysCool 0 1 0 (by decide) (by decide) (by decide)⟩

/-- Statement of claim C1 as written: in one pass of the loop body,
every owned cell that is not a designated fixed-source cell (designation
given by the predicate `fsrc`, fixed at initialization and independent
of the cell's value) receives its kernel's averaging value. -/
def updateWritesAllNonSources (W R C : ℕ) (fsrc : ℕ → ℕ → ℕ → Bool) (s : Sys) : Prop :=
  ∀ w, w < W → ∀ i, 1 ≤ i → i ≤ R → ∀ j, j < C → fsrc w i j = false →
    (iterOnce W R C s).cur w i j = stencilVal C ((exchange W R C s).last w) i j

/-- Concrete single-rank state for the C1 counterexample: cell `(2, 1)`
of the slab holds exactly `MAX_TEMPERATURE` without being designated a
fixed source; everything else is `0`. -/
def sysHotCell : Sys where
  cur := fun _ i j => if i = 2 ∧ j = 1 then 50 else 0
  last := fun _ _ _ => 0

/-- C1 counterexample: with no cell designated as a fixed source, the
kernels still skip cell `(2, 1)` because its value happens to equal
`MAX_TEMPERATURE`; the claimed four-point average there is `0`, yet the
update leaves the cell at `50`. -/
theorem update_skips_hot_nonsource :
    ¬ updateWritesAllNonSources 1 3 3 (fun _ _ _ => false) sysHotCell := by
  intro h
  have h50 := h 0 (by decide) 2 (by decide) (by decide) 1 (by decide) rfl
  norm_num [iterOnce, stencilOnce, exchange, stencilVal, interiorVal, leftEdgeVal,
    rightEdgeVal, sysHotCell, MAX_TEMPERATURE] at h50

/-- C1 amended: cells are exempted from the update by current value, not
by designation.  In one pass of the loop body, every owned cell whose
`temperatures` value is not exactly `MAX_TEMPERATURE` receives the
three-region average of the post-exchange `temperatures_last` slab:
the 3-point left average at `j = 0`, the symmetric 3-point right average
at `j = C - 1`, and the 4-point average at interior columns. -/
theorem update_writes_cool_cells (W R C : ℕ) (s : Sys) (w i j : ℕ)
    (hi1 : 1 ≤ i) (hiR : i ≤ R) (hj : j < C)
    (hcool : s.cur w i j ≠ MAX_TEMPERATURE) :
    (iterOnce W R C s).cur w i j =
      (if j = 0 then leftEdgeVal ((exchange W R C s).last w) i
       else if j = C - 1 then rightEdgeVal C ((exchange W R C s).last w) i
       else interiorVal ((exchange W R C s).last w) i j) := by
  show stencilOnce R C (s.cur w) ((exchange W R C s).last w) i j = _
  unfold stencilOnce
  rw [if_pos ⟨hi1, hiR, hj⟩, if_neg hcool]
  rfl

theorem update_writes_cool_cells_witness :
    1 ≤ 2 ∧ 2 ≤ 3 ∧ 1 < 3 ∧ sysHotCell.cur 0 2 2 ≠ MAX_TEMPERATURE ∧
      (iterOnce 1 3 3 sysHotCell).cur 0 2 2 =
        (if 2 = 0 then leftEdgeVal ((exchange 1 3 3 sysHotCell).last 0) 2
         else if 2 = 3 - 1 then rightEdgeVal 3 ((exchange 1 3 3 sysHotCell).last 0) 2
         else interiorVal ((exchange 1 3 3 sysHotCell).last 0) 2 2) :=
  ⟨by decide, by decide, by decide, by decide,
    update_writes_cool_cells 1 3 3 sysHotCell 0 2 2 (by decide) (by decide) (by decide)
      (by decide)⟩

/-- Modelled from the spec: the boundary-aware top-row variant that
claim C4 asserts ("reduced-neighbor averaging that excludes the missing
row", mirroring the 3-point treatment of the column edges).  For the
globally topmost rank, row `1` at an interior column would average the
row below and the two lateral neighbours. -/
def specTopRowVal (last : Grid) (j : ℕ) : ℚ :=
  (last 2 j + last 1 (j - 1) + last 1 (j + 1)) / 3

/-- Statement of claim C4's top half as written: the rank with no
neighbour above applies the reduced-neighbour average to its row `1`
(interior columns, non-hot cells). -/
def topRowBoundaryAware (W R C : ℕ) (s : Sys) : Prop :=
  ∀ j, 1 ≤ j → j < C - 1 → s.cur 0 1 j ≠ MAX_TEMPERATURE →
    (iterOnce W R C s).cur 0 1 j = specTopRowVal ((exchange W R C s).last 0) j

/-- Concrete single-rank state for the C4 counterexample: distinct
`temperatures_last` values everywhere, cool `temperatures`. -/
def sysRamp : Sys where
  cur := fun _ _ _ => 0
  last := fun _ i j => ((10 * i + j : ℕ) : ℚ)

/-- C4 counterexample: the kernels apply the uniform 4-point interior
stencil to row `1` of the topmost rank (reading its never-refreshed
ghost row `0`), not the claimed reduced 3-point average: at cell
`(1, 1)` the code produces `11`, the claimed variant `43 / 3`. -/
theorem no_boundary_aware_top_row : ¬ topRowBoundaryAware 1 2 4 sysRamp := by
  intro h
  have h1 := h 1 (by decide) (by decide) (by decide)
  norm_num [iterOnce, stencilOnce, exchange, stencilVal, interiorVal, leftEdgeVal,
    rightEdgeVal, specTopRowVal, sysRamp, MAX_TEMPERATURE] at h1

/-- C4 amended: rows `1` and `R` of the globally topmost and bottommost
ranks get no boundary-aware variant; the loop bounds at gpu.c lines
192, 203 and 219 treat them like every other owned row, so their
updates read the ghost rows `0` and `R + 1`, which the exchange left
exactly as they were (the corresponding transfers address
`MPI_PROC_NULL`). -/
theorem top_bottom_rows_use_ghost_rows (W R C : ℕ) (s : Sys) (j : ℕ)
    (hR : 2 ≤ R) (hj1 : 1 ≤ j) (hjC : j < C - 1)
    (htop : s.cur 0 1 j ≠ MAX_TEMPERATURE)
    (hbot : s.cur (W - 1) R j ≠ MAX_TEMPERATURE) :
    (iterOnce W R C s).cur 0 1 j =
      0.25 * (s.last 0 0 j + s.last 0 2 j + s.last 0 1 (j - 1) + s.last 0 1 (j + 1)) ∧
    (iterOnce W R C s).cur (W - 1) R j =
      0.25 * (s.last (W - 1) (R - 1) j + s.last (W - 1) (R + 1) j +
        s.last (W - 1) R (j - 1) + s.last (W - 1) R (j + 1)) := by
  have hC : j < C := by omega
  have hj0 : j ≠ 0 := by omega
  have hjC1 : j ≠ C - 1 := by omega
  have hex : ∀ w i k, (1 ≤ i ∧ i ≤ R ∧ (w = 0 → i ≠ 0) ∧ (w = W - 1 → i ≠ R + 1)) ∨
      (w = 0 ∧ i = 0) ∨ (w = W - 1 ∧ i = R + 1) →
      (exchange W R C s).last w i k = s.last w i k := by
    intro w i k hcases
    show (if i = 0 ∧ k < C then _ else if i = R + 1 ∧ k < C then _ else s.last w i k) = _
    rcases hcases with h | ⟨hw, hi⟩ | ⟨hw, hi⟩
    · rw [if_neg (by omega), if_neg (by omega)]
    · subst hw hi
      by_cases hk : k < C
      · rw [if_pos ⟨rfl, hk⟩, if_pos rfl]
      · rw [if_neg (by omega), if_neg (by omega)]
    · subst hw hi
      by_cases hk : k < C
      · rw [if_neg (by omega), if_pos ⟨rfl, hk⟩, if_pos rfl]
      · rw [if_neg (by omega), if_neg (by omega)]
  constructor
  · show stencilOnce R C (s.cur 0) ((exchange W R C s).last 0) 1 j = _
    unfold stencilOnce
    rw [if_pos ⟨le_refl 1, by omega, hC⟩, if_neg htop]
    unfold stencilVal
    rw [if_neg hj0, if_neg hjC1]
    unfold interiorVal
    rw [hex 0 (1 - 1) j (Or.inr (Or.inl ⟨rfl, rfl⟩)),
      hex 0 (1 + 1) j (Or.inl ⟨by omega, by omega, by omega, by omega⟩),
      hex 0 1 (j - 1) (Or.inl ⟨by omega, by omega, by omega, by omega⟩),
      hex 0 1 (j + 1) (Or.inl ⟨by omega, by omega, by omega, by omega⟩)]
  · show stencilOnce R C (s.cur (W - 1)) ((exchange W R C s).last (W - 1)) R j = _
    unfold stencilOnce
    rw [if_pos ⟨by omega, le_refl R, hC⟩, if_neg hbot]
    unfold stencilVal
    rw [if_neg hj0, if_neg hjC1]
    unfold interiorVal
    rw [hex (W - 1) (R - 1) j (Or.inl ⟨by omega, by omega, by omega, by omega⟩),
      hex (W - 1) (R + 1) j (Or.inr (Or.inr ⟨rfl, rfl⟩)),
      hex (W - 1) R (j - 1) (Or.inl ⟨by omega, by omega, by omega, by omega⟩),
      hex (W - 1) R (j + 1) (Or.inl ⟨by omega, by omega, by omega, by omega⟩)]

theorem top_bottom_rows_use_ghost_rows_witness :
    2 ≤ 2 ∧ 1 ≤ 1 ∧ 1 < 4 - 1 ∧ sysRamp.cur 0 1 1 ≠ MAX_TEMPERATURE ∧
      sysRamp.cur (1 - 1) 2 1 ≠ MAX_TEMPERATURE ∧
      ((iterOnce 1 2 4 sysRamp).cur 0 1 1 =
        0.25 * (sysRamp.last 0 0 1 + sysRamp.last 0 2 1 +
          sysRamp.last 0 1 (1 - 1) + sysRamp.last 0 1 (1 + 1)) ∧
       (iterOnce 1 2 4 sysRamp).cur (1 - 1) 2 1 =
        0.25 * (sysRamp.last (1 - 1) (2 - 1) 1 + sysRamp.last (1 - 1) (2 + 1) 1 +
          sysRamp.last (1 - 1) 2 (1 - 1) + sysRamp.last (1 - 1) 2 (1 + 1))) :=
  ⟨by decide, by decide, by decide, by decide, by decide,
    top_bottom_rows_use_ghost_rows 1 2 4 sysRamp 1 (by decide) (by decide) (by decide)
      (by decide) (by decide)⟩

/-- C3: with `W` dividing `R` evenly, rank `w` owns the global row range
`[w * (R / W), (w + 1) * (R / W))`, those ranges tile `[0, R)` with no
gap and no overlap (each global row lies in exactly one rank's range),
and the neighbour ranks are `w - 1` above (none exactly for rank `0`)
and `w + 1` below (none exactly for rank `W - 1`). -/
theorem partition_and_neighbours_correct (R W : ℕ) (hW : 0 < W) (hdvd : W ∣ R) :
    (∀ r, r < R → ∃! w, w < W ∧ ownedLo R W w ≤ r ∧ r < ownedHi R W w) ∧
    (∀ w, w < W →
      (up_neighbour_rank w = none ↔ w = 0) ∧
      (0 < w → up_neighbour_rank w = some (w - 1)) ∧
      (down_neighbour_rank W w = none ↔ w = W - 1) ∧
      (w < W - 1 → down_neighbour_rank W w = some (w + 1))) := by
  constructor
  · intro r hr
    obtain ⟨q, hq⟩ := hdvd
    have hRq : R / W = q := by rw [hq]; exact Nat.mul_div_cancel_left q hW
    have hq0 : 0 < q := by
      rcases Nat.eq_zero_or_pos q with h0 | h0
      · subst h0; rw [Nat.mul_zero] at hq; omega
      · exact h0
    have hrWq : r < W * q := by omega
    have hdm := Nat.div_add_mod r q
    have hm := Nat.mod_lt r hq0
    refine ⟨r / q, ⟨?_, ?_, ?_⟩, ?_⟩
    · exact (Nat.div_lt_iff_lt_mul hq0).mpr hrWq
    · unfold ownedLo
      rw [hRq]
      exact Nat.div_mul_le_self r q
    · unfold ownedHi
      rw [hRq]
      calc r = q * (r / q) + r % q := hdm.symm
        _ < q * (r / q) + q := by omega
        _ = (r / q + 1) * q := by ring
    · intro y hy
      obtain ⟨-, hylo, hyhi⟩ := hy
      unfold ownedLo at hylo
      unfold ownedHi at hyhi
      rw [hRq] at hylo hyhi
      exact (Nat.div_eq_of_lt_le hylo hyhi).symm
  · intro w hw
    refine ⟨?_, ?_, ?_, ?_⟩
    · by_cases h : w = 0 <;> simp [up_neighbour_rank, h]
    · intro h
      rw [up_neighbour_rank, if_neg (by omega)]
    · by_cases h : w = W - 1 <;> simp [down_neighbour_rank, h]
    · intro h
      rw [down_neighbour_rank, if_neg (by omega)]

theorem partition_and_neighbours_correct_witness :
    ∃! w, w < 2 ∧ ownedLo 4 2 w ≤ 3 ∧ 3 < ownedHi 4 2 w :=
  (partition_and_neighbours_correct 4 2 (by decide) (by decide)).1 3 (by decide)

/-- Slab declaration (gpu.c lines 58-61): `temperatures` and
`temperatures_last` are automatic arrays with no initializer, so right
after the declaration each holds whatever the stack held. -/
def declareSlabs (junkCur junkLast : ℕ → Grid) : Sys where
  cur := junkCur
  last := junkLast

/-- Statement of claim C5 as written: whatever the pre-existing stack
contents, every cell of both freshly allocated slabs is `0.0`. -/
def slabsZeroInitialised (jc jl : ℕ → Grid) : Prop :=
  ∀ w i j, (declareSlabs jc jl).cur w i j = 0 ∧ (declareSlabs jc jl).last w i j = 0

/-- C5 counterexample: the declarations zero nothing; with stack
contents `1` everywhere the freshly declared slabs hold `1`. -/
theorem slabs_not_zero_initialised : ¬ ∀ jc jl, slabsZeroInitialised jc jl := by
  intro h
  have h1 := (h (fun _ _ _ => 1) (fun _ _ _ => 1) 0 0 0).1
  exact absurd h1 (by norm_num [declareSlabs])

/-- C5 amended: the slabs start with indeterminate contents.  The
distribution fills rows `1..R` of both slabs with the rank's global row
block; every other cell — in particular the two ghost rows — keeps the
indeterminate declared contents, and the topmost rank's ghost row `0` is
never overwritten by any later iteration (its receive addresses
`MPI_PROC_NULL`). -/
theorem slabs_uninitialised_until_loaded (W R C : ℕ) (all : Grid) (jc jl : ℕ → Grid)
    (n w i j : ℕ) (hi1 : 1 ≤ i) (hiR : i ≤ R) (hj : j < C) :
    (distribute R C all jc jl).last w i j = all (w * R + (i - 1)) j ∧
    (distribute R C all jc jl).cur w i j = all (w * R + (i - 1)) j ∧
    (distribute R C all jc jl).last w 0 j = jl w 0 j ∧
    (iterN W R C n (distribute R C all jc jl)).last 0 0 j = jl 0 0 j := by
  have htop : ∀ m (s : Sys) (k : ℕ), (iterN W R C m s).last 0 0 k = s.last 0 0 k := by
    intro m
    induction m with
    | zero => intro s k; rfl
    | succ p ih =>
      intro s k
      show (iterOnce W R C (iterN W R C p s)).last 0 0 k = _
      rw [iterOnce_last_eq]
      unfold copyBack
      rw [if_neg (by omega), exchange_last_eq]
      by_cases hk : k < C
      · rw [if_pos ⟨rfl, hk⟩, if_pos rfl, ih s k]
      · rw [if_neg (by omega), if_neg (by omega), ih s k]
  refine ⟨?_, ?_, ?_, ?_⟩
  · rw [distribute_last_eq, if_pos ⟨hi1, hiR, hj⟩]
  · rw [distribute_cur_eq, if_pos ⟨hi1, hiR, hj⟩]
  · rw [distribute_last_eq, if_neg (by omega)]
  · rw [htop n (distribute R C all jc jl) j, distribute_last_eq, if_neg (by omega)]

/-- Concrete stack contents for the C5 witness. -/
def junkOnes : ℕ → Grid := fun _ _ _ => 1

/-- Concrete global grid for the C5 and C9 witnesses. -/
def allRamp : Grid := fun i j => ((100 * i + j : ℕ) : ℚ)

theorem slabs_uninitialised_until_loaded_witness :
    1 ≤ 1 ∧ 1 ≤ 2 ∧ 0 < 3 ∧
      ((distribute 2 3 allRamp junkOnes junkOnes).last 1 1 0 = allRamp (1 * 2 + (1 - 1)) 0 ∧
       (distribute 2 3 allRamp junkOnes junkOnes).cur 1 1 0 = allRamp (1 * 2 + (1 - 1)) 0 ∧
       (distribute 2 3 allRamp junkOnes junkOnes).last 1 0 0 = junkOnes 1 0 0 ∧
       (iterN 2 2 3 4 (distribute 2 3 allRamp junkOnes junkOnes)).last 0 0 0 = junkOnes 0 0 0) :=
  ⟨by decide, by decide, by decide,
    slabs_uninitialised_until_loaded 2 2 3 allRamp junkOnes junkOnes 4 1 1 0
      (by decide) (by decide) (by decide)⟩

/-- C6: the exchange refreshes ghost row `0` of `temperatures_last` with
the up neighbour's boundary row `R` of `temperatures` and ghost row
`R + 1` with the down neighbour's boundary row `1`; a transfer whose
neighbour is `MPI_PROC_NULL` (rank `0` upward, rank `W - 1` downward)
moves nothing and leaves the ghost row unchanged; the owned rows of
`temperatures_last` and all of `temperatures` are untouched. -/
theorem halo_exchange_moves_boundary_rows (W R C : ℕ) (s : Sys) (w j : ℕ)
    (hj : j < C) :
    ((w = 0 → (exchange W R C s).last w 0 j = s.last w 0 j) ∧
     (0 < w → (exchange W R C s).last w 0 j = s.cur (w - 1) R j) ∧
     (w = W - 1 → (exchange W R C s).last w (R + 1) j = s.last w (R + 1) j) ∧
     (w < W - 1 → (exchange W R C s).last w (R + 1) j = s.cur (w + 1) 1 j)) ∧
    (∀ i, 1 ≤ i → i ≤ R → (exchange W R C s).last w i j = s.last w i j) ∧
    (∀ i, (exchange W R C s).cur w i j = s.cur w i j) := by
  refine ⟨⟨?_, ?_, ?_, ?_⟩, ?_, fun i => rfl⟩
  · intro hw
    rw [exchange_last_eq, if_pos ⟨rfl, hj⟩, if_pos hw]
  · intro hw
    rw [exchange_last_eq, if_pos ⟨rfl, hj⟩, if_neg (by omega)]
  · intro hw
    rw [exchange_last_eq, if_neg (by omega), if_pos ⟨rfl, hj⟩, if_pos hw]
  · intro hw
    rw [exchange_last_eq, if_neg (by omega), if_pos ⟨rfl, hj⟩, if_neg (by omega)]
  · intro i hi1 hiR
    rw [exchange_last_eq, if_neg (by omega), if_neg (by omega)]

theorem halo_exchange_moves_boundary_rows_witness :
    (exchange 2 1 1 sysRamp).last 1 0 0 = sysRamp.cur 0 1 0 :=
  (halo_exchange_moves_boundary_rows 2 1 1 sysRamp 1 0 (by decide)).1.2.1 (by decide)

/-- The coarse phases of `main`, in program order. -/
inductive Phase where
  | initialiseTemps
  | barrier
  | distributeChunks
  | copyCurrentFromLast
  | iterationLoop
  | printSummary
deriving DecidableEq

/-- Phase order of `src/src/c/gpu.c`: the pre-scatter barrier at line 75
is the only one; the post-distribution barrier at lines 142-145 is
commented out. -/
def gpuPhaseSequence : List Phase :=
  [Phase.initialiseTemps, Phase.barrier, Phase.distributeChunks,
   Phase.copyCurrentFromLast, Phase.iterationLoop, Phase.printSummary]

/-- Phase order of `src/unnamed/part_000`: the same `main`, but the
`MPI_Barrier` at line 145 (after the distribution and the copy, before
the processing loop) is active. -/
def part000PhaseSequence : List Phase :=
  [Phase.initialiseTemps, Phase.barrier, Phase.distributeChunks,
   Phase.copyCurrentFromLast, Phase.barrier, Phase.iterationLoop, Phase.printSummary]

/-- Whether a barrier phase occurs strictly after the distribution and
before the iteration loop. -/
def barrierBetween (l : List Phase) : Bool :=
  (((l.dropWhile fun ph => !(ph == Phase.distributeChunks)).drop 1).takeWhile
      fun ph => !(ph == Phase.iterationLoop)).any
    fun ph => ph == Phase.barrier

/-- C8 counterexample: in `gpu.c` no barrier separates the scatter from
the iteration loop — the `MPI_Barrier` after data distribution is
commented out (lines 142-145), so the claimed synchronization point does
not exist in that program. -/
theorem gpu_lacks_post_scatter_barrier : ¬ barrierBetween gpuPhaseSequence = true := by
  decide

/-- C8 amended: only the `part_000` variant synchronizes all workers
between the scatter and the iteration loop; in the `gpu.c` variant the
post-scatter barrier is commented out and the only barrier precedes the
distribution (and the timed region). -/
theorem post_scatter_barrier_only_in_part000 :
    barrierBetween part000PhaseSequence = true ∧
      barrierBetween gpuPhaseSequence = false := by
  decide

/-- Statement of claim C9 as written, at a given configuration: the
iteration-0 snapshot reproduces the initial condition exactly. -/
def snapshotReproducesInitial (W R C : ℕ) (all : Grid) (jc jl : ℕ → Grid) : Prop :=
  ∀ g, g < W * R → ∀ j, j < C → firstSnapshot W R C all jc jl g j = all g j

/-- Concrete 3×3 initial condition for the C9 counterexample: one hot
cell in the middle, everything else cold. -/
def allHotCentre : Grid := fun i j => if i = 1 ∧ j = 1 then 50 else 0

/-- Zeroed stack contents, fixing the ghost rows for the C9
counterexample. -/
def junkZero : ℕ → Grid := fun _ _ _ => 0

/-- C9 counterexample: the gather sits after the stencil kernels in the
loop body, so the iteration-0 snapshot already contains one update: on
the 3×3 single-rank grid with a hot centre, the snapshot holds `50 / 3`
at global cell `(1, 0)` where the initial condition holds `0`. -/
theorem snapshot_zero_not_initial_condition :
    ¬ snapshotReproducesInitial 1 3 3 allHotCentre junkZero junkZero := by
  intro h
  have h1 := h 1 (by decide) 0 (by decide)
  norm_num [firstSnapshot, gatherSnapshot, iterOnce, stencilOnce, exchange, distribute,
    stencilVal, interiorVal, leftEdgeVal, rightEdgeVal, allHotCentre, junkZero,
    MAX_TEMPERATURE] at h1

/-- C9 amended: the iteration-0 snapshot equals the grid after the first
stencil update (not the initial condition), with each rank's owned rows
placed at its global row offset: global row `w * R + k` of the snapshot
is rank `w`'s updated slab row `k + 1`. -/
theorem snapshot_rows_at_offsets (W R C : ℕ) (all : Grid) (jc jl : ℕ → Grid)
    (w k j : ℕ) (hk : k < R) :
    firstSnapshot W R C all jc jl (w * R + k) j =
      (iterOnce W R C (distribute R C all jc jl)).cur w (k + 1) j := by
  have hR : 0 < R := by omega
  have hdiv : (w * R + k) / R = w :=
    Nat.div_eq_of_lt_le (Nat.le_add_right (w * R) k)
      (by rw [Nat.add_one_mul]; omega)
  have hmod : (w * R + k) % R = k := by
    rw [Nat.add_comm, Nat.add_mul_mod_self_right]
    exact Nat.mod_eq_of_lt hk
  unfold firstSnapshot gatherSnapshot
  rw [hdiv, hmod]

theorem snapshot_rows_at_offsets_witness :
    1 < 2 ∧ firstSnapshot 2 2 3 allRamp junkOnes junkOnes (1 * 2 + 1) 0 =
      (iterOnce 2 2 3 (distribute 2 3 allRamp junkOnes junkOnes)).cur 1 (1 + 1) 0 :=
  ⟨by decide, snapshot_rows_at_offsets 2 2 3 allRamp junkOnes junkOnes 1 1 0 (by decide)⟩

/-- Kinds of MPI point-to-point calls the exchange could be built
from. -/
inductive CommKind where
  | blockingSyncSend
  | blockingRecv
  | nonblockingSend
  | nonblockingRecv
  | combinedSendRecv
deriving DecidableEq

/-- Direction of a transfer relative to the issuing rank. -/
inductive CommDir where
  | up
  | down
deriving DecidableEq

/-- One communication call of the exchange. -/
structure CommOp where
  kind : CommKind
  dir : CommDir
deriving DecidableEq

/-- The ghost-cell exchange exactly as written (gpu.c lines 171-180):
`MPI_Ssend` up, `MPI_Recv` from down, `MPI_Ssend` down, `MPI_Recv` from
up — four blocking calls in program order.  (The `MPI_Sendrecv`
alternative at lines 182-186 is commented out.) -/
def haloCallSequence : List CommOp :=
  [⟨CommKind.blockingSyncSend, CommDir.up⟩, ⟨CommKind.blockingRecv, CommDir.down⟩,
   ⟨CommKind.blockingSyncSend, CommDir.down⟩, ⟨CommKind.blockingRecv, CommDir.up⟩]

/-- Claim C7's implementation requirement: every call of the exchange is
a non-blocking send/receive or a combined send-receive primitive. -/
def usesNonBlockingOrCombined (ops : List CommOp) : Bool :=
  ops.all fun o =>
    o.kind == CommKind.nonblockingSend || o.kind == CommKind.nonblockingRecv ||
      o.kind == CommKind.combinedSendRecv

/-- C7 counterexample: the exchange is implemented as the blocking
synchronous-send-then-receive sequence the claim rules out; its very
first call is a blocking `MPI_Ssend`. -/
theorem halo_not_nonblocking : ¬ usesNonBlockingOrCombined haloCallSequence = true := by
  decide

/-- Program counter of one rank inside the exchange: `0` before the up
send, `1` before the receive from below, `2` before the down send, `3`
before the receive from above, `4` done. -/
abbrev NetConfig := ℕ → ℕ

/-- Every rank at the start of the exchange. -/
def startConfig : NetConfig := fun _ => 0

/-- Pointwise program-counter update. -/
def updPc (p : NetConfig) (r v : ℕ) : NetConfig := fun x => if x = r then v else p x

/-- Rendezvous semantics of the exchange (gpu.c lines 171-180) for `W`
ranks.  An `MPI_Ssend` completes only together with the matching
`MPI_Recv` of the addressed rank (`syncUp` pairs rank `r + 1`'s up send
with rank `r`'s receive-from-below, `syncDown` pairs rank `r`'s down
send with rank `r + 1`'s receive-from-above); the four calls addressed
to `MPI_PROC_NULL` — rank `0`'s up send and up receive, rank `W - 1`'s
down receive and down send — complete on their own. -/
inductive NetStep (W : ℕ) : NetConfig → NetConfig → Prop where
  | nullSendUp (p : NetConfig) (h : p 0 = 0) : NetStep W p (updPc p 0 1)
  | syncUp (p : NetConfig) (r : ℕ) (hr : r + 1 < W) (hsend : p (r + 1) = 0)
      (hrecv : p r = 1) : NetStep W p (updPc (updPc p (r + 1) 1) r 2)
  | nullRecvDown (p : NetConfig) (h : p (W - 1) = 1) : NetStep W p (updPc p (W - 1) 2)
  | nullSendDown (p : NetConfig) (h : p (W - 1) = 2) : NetStep W p (updPc p (W - 1) 3)
  | syncDown (p : NetConfig) (r : ℕ) (hr : r + 1 < W) (hsend : p r = 2)
      (hrecv : p (r + 1) = 3) : NetStep W p (updPc (updPc p r 3) (r + 1) 4)
  | nullRecvUp (p : NetConfig) (h : p 0 = 3) : NetStep W p (updPc p 0 4)

/-- Configurations reachable from the start of the exchange. -/
inductive NetReach (W : ℕ) : NetConfig → Prop where
  | start : NetReach W startConfig
  | step (p q : NetConfig) (hp : NetReach W p) (hs : NetStep W p q) : NetReach W q

/-- All ranks have finished the exchange. -/
def NetDone (W : ℕ) (p : NetConfig) : Prop := ∀ r, r < W → p r = 4

/-- Frontier invariant of the exchange: the up phase sweeps a frontier
from rank `0` towards rank `W - 1` (ranks below the frontier have
finished their up send and down receive, the frontier rank awaits its
down receive), then the down phase sweeps a frontier back down to rank
`0`. -/
def netInv (W : ℕ) (p : NetConfig) : Prop :=
  (∀ r, r < W → p r = 0) ∨
  (∃ k, k < W ∧ ∀ r, r < W → p r = if r < k then 2 else if r = k then 1 else 0) ∨
  (∀ r, r < W → p r = 2) ∨
  (∃ m, m < W ∧ ∀ r, r < W → p r = if r < m then 2 else if r = m then 3 else 4) ∨
  NetDone W p

/-- The frontier invariant is preserved by every step of the
exchange. -/
theorem netInv_step (W : ℕ) (p q : NetConfig) (hinv : netInv W p)
    (hs : NetStep W p q) : netInv W q := by
  rcases Nat.eq_zero_or_pos W with hW0 | hW
  · left
    intro r hr
    omega
  cases hs with
  | nullSendUp h =>
    rcases hinv with hA | ⟨k, hk, hB⟩ | hC | ⟨m, hm, hD⟩ | hE
    · right; left
      refine ⟨0, hW, ?_⟩
      intro x hx
      have h1 := hA x hx
      simp only [updPc]
      split_ifs <;> omega
    · exfalso
      have h1 := hB 0 hW
      split_ifs at h1 <;> omega
    · exfalso
      have h1 := hC 0 hW
      omega
    · exfalso
      have h1 := hD 0 hW
      split_ifs at h1 <;> omega
    · exfalso
      have h1 := hE 0 hW
      omega
  | syncUp r hr hsend hrecv =>
    rcases hinv with hA | ⟨k, hk, hB⟩ | hC | ⟨m, hm, hD⟩ | hE
    · exfalso
      have h1 := hA r (by omega)
      omega
    · have hkr : k = r := by
        have h1 := hB r (by omega)
        split_ifs at h1 <;> omega
      subst hkr
      right; left
      refine ⟨k + 1, by omega, ?_⟩
      intro x hx
      have h1 := hB x hx
      simp only [updPc]
      split_ifs at h1 ⊢ <;> omega
    · exfalso
      have h1 := hC r (by omega)
      omega
    · exfalso
      have h1 := hD r (by omega)
      split_ifs at h1 <;> omega
    · exfalso
      have h1 := hE r (by omega)
      omega
  | nullRecvDown h =>
    rcases hinv with hA | ⟨k, hk, hB⟩ | hC | ⟨m, hm, hD⟩ | hE
    · exfalso
      have h1 := hA (W - 1) (by omega)
      omega
    · have hk1 : k = W - 1 := by
        have h1 := hB (W - 1) (by omega)
        split_ifs at h1 <;> omega
      right; right; left
      intro x hx
      have h1 := hB x hx
      simp only [updPc]
      split_ifs at h1 ⊢ <;> omega
    · exfalso
      have h1 := hC (W - 1) (by omega)
      omega
    · exfalso
      have h1 := hD (W - 1) (by omega)
      split_ifs at h1 <;> omega
    · exfalso
      have h1 := hE (W - 1) (by omega)
      omega
  | nullSendDown h =>
    rcases hinv with hA | ⟨k, hk, hB⟩ | hC | ⟨m, hm, hD⟩ | hE
    · exfalso
      have h1 := hA (W - 1) (by omega)
      omega
    · exfalso
      have h1 := hB (W - 1) (by omega)
      split_ifs at h1 <;> omega
    · right; right; right; left
      refine ⟨W - 1, by omega, ?_⟩
      intro x hx
      have h1 := hC x hx
      simp only [updPc]
      split_ifs <;> omega
    · exfalso
      have h1 := hD (W - 1) (by omega)
      split_ifs at h1 <;> omega
    · exfalso
      have h1 := hE (W - 1) (by omega)
      omega
  | syncDown r hr hsend hrecv =>
    rcases hinv with hA | ⟨k, hk, hB⟩ | hC | ⟨m, hm, hD⟩ | hE
    · exfalso
      have h1 := hA (r + 1) (by omega)
      omega
    · exfalso
      have h1 := hB (r + 1) (by omega)
      split_ifs at h1 <;> omega
    · exfalso
      have h1 := hC (r + 1) (by omega)
      omega
    · have hmr : m = r + 1 := by
        have h1 := hD (r + 1) (by omega)
        split_ifs at h1 <;> omega
      subst hmr
      right; right; right; left
      refine ⟨r, by omega, ?_⟩
      intro x hx
      have h1 := hD x hx
      simp only [updPc]
      split_ifs at h1 ⊢ <;> omega
    · exfalso
      have h1 := hE (r + 1) (by omega)
      omega
  | nullRecvUp h =>
    rcases hinv with hA | ⟨k, hk, hB⟩ | hC | ⟨m, hm, hD⟩ | hE
    · exfalso
      have h1 := hA 0 hW
      omega
    · exfalso
      have h1 := hB 0 hW
      split_ifs at h1 <;> omega
    · exfalso
      have h1 := hC 0 hW
      omega
    · have hm0 : m = 0 := by
        have h1 := hD 0 hW
        split_ifs at h1 <;> omega
      subst hm0
      right; right; right; right
      intro x hx
      have h1 := hD x hx
      simp only [updPc]
      split_ifs at h1 ⊢ <;> omega
    · exfalso
      have h1 := hE 0 hW
      omega

/-- In every non-final configuration satisfying the frontier invariant
some call of the exchange can complete. -/
theorem netInv_progress (W : ℕ) (hW : 0 < W) (p : NetConfig) (hinv : netInv W p)
    (hnd : ¬ NetDone W p) : ∃ q, NetStep W p q := by
  rcases hinv with hA | ⟨k, hk, hB⟩ | hC | ⟨m, hm, hD⟩ | hE
  · exact ⟨_, NetStep.nullSendUp p (hA 0 hW)⟩
  · rcases Nat.lt_or_ge (k + 1) W with h1 | h1
    · refine ⟨_, NetStep.syncUp p k h1 ?_ ?_⟩
      · have h2 := hB (k + 1) h1
        split_ifs at h2 <;> omega
      · have h2 := hB k hk
        split_ifs at h2 <;> omega
    · refine ⟨_, NetStep.nullRecvDown p ?_⟩
      have h2 := hB (W - 1) (by omega)
      split_ifs at h2 <;> omega
  · exact ⟨_, NetStep.nullSendDown p (hC (W - 1) (by omega))⟩
  · rcases Nat.eq_zero_or_pos m with h1 | h1
    · refine ⟨_, NetStep.nullRecvUp p ?_⟩
      have h2 := hD 0 hW
      split_ifs at h2 <;> omega
    · refine ⟨_, NetStep.syncDown p (m - 1) (by omega) ?_ ?_⟩
      · have h2 := hD (m - 1) (by omega)
        split_ifs at h2 <;> omega
      · have hm1 : m - 1 + 1 = m := by omega
        rw [hm1]
        have h2 := hD m hm
        split_ifs at h2 <;> omega
  · exact absurd hE hnd

/-- Every reachable configuration of the exchange satisfies the
frontier invariant. -/
theorem netReach_inv (W : ℕ) (p : NetConfig) (h : NetReach W p) : netInv W p := by
  induction h with
  | start =>
    left
    intro r hr
    rfl
  | step p q hp hs ih => exact netInv_step W p q ih hs

/-- C7 amended: although the exchange is the ordered blocking
Ssend/Recv sequence, it is deadlock-free for every rank count and every
position: in any reachable configuration in which some rank has not
finished its exchange, at least one call can complete — progress is
guaranteed by the `MPI_PROC_NULL` endpoints at the two chain ends, not
by non-blocking or combined primitives. -/
theorem halo_exchange_deadlock_free (W : ℕ) (hW : 0 < W) (p : NetConfig)
    (hreach : NetReach W p) (hnd : ¬ NetDone W p) : ∃ q, NetStep W p q :=
  netInv_progress W hW p (netReach_inv W p hreach) hnd

theorem halo_exchange_deadlock_free_witness :
    0 < 2 ∧ ¬ NetDone 2 startConfig ∧ ∃ q, NetStep 2 startConfig q :=
  ⟨by decide,
   by intro h; exact absurd (h 0 (by decide)) (by decide),
   halo_exchange_deadlock_free 2 (by decide) startConfig NetReach.start
     (by intro h; exact absurd (h 0 (by decide)) (by decide))⟩

end HeatSim
